import Mathlib

/-!
Verification development for a one-directional cloud-drive mirroring tool
(single Python source file `gdrive-backup.py`).  The definitions below are a
shallow embedding of the program's core: filename sanitization, versioned
path construction, the version ledger (SQLite `files` table) and the per-file
download/skip decision, the retry wrapper built on `tenacity`, the date-window
query, and the folder/file listing pagination.  Theorems settle the frozen
claims about this program.
-/

namespace GDriveBackup

/-! ## Filename sanitization (source: `sanitize_filename`, lines 121-126) -/

/-- The characters replaced by `_`; source line 123: `invalid_chars = '<>:"/\\|?*'`. -/
def invalid_chars : List Char := ['<', '>', ':', '"', '/', '\\', '|', '?', '*']

/-- Python `str.startswith`, computed on the character sequence. -/
def strStartsWith (s pre : String) : Bool :=
  pre.toList.isPrefixOf s.toList

/-- Python `str.endswith`, computed on the character sequence. -/
def strEndsWith (s suf : String) : Bool :=
  suf.toList.isSuffixOf s.toList

/-- Replacement of one character occurrence: `x` becomes `_` when it equals `c`. -/
def charRepl (c x : Char) : Char :=
  if x = c then '_' else x

/-- One pass of Python `str.replace(char, "_")` for a single character. -/
def replaceChar (s : String) (c : Char) : String :=
  String.mk (s.toList.map (charRepl c))

/-- `sanitize_filename`: sequentially replaces each invalid character by `_`
(source lines 124-125: `for char in invalid_chars: filename = filename.replace(char, "_")`). -/
def sanitize_filename (filename : String) : String :=
  invalid_chars.foldl replaceChar filename

/-! ## `os.path` helpers used by the source -/

/-- Python `str.rfind` on a character list: index of the last occurrence, `-1` if absent. -/
def rfindChar (cs : List Char) (c : Char) : Int :=
  (cs.foldl (fun acc x => (if x = c then acc.2 else acc.1, acc.2 + 1)) ((-1 : Int), (0 : Int))).1

/-- `os.path.splitext` (posix): split at the last dot of the basename, unless the
basename consists of leading dots up to that point. -/
def splitext (p : String) : String × String :=
  let cs := p.toList
  let sepIndex := rfindChar cs '/'
  let dotIndex := rfindChar cs '.'
  if sepIndex < dotIndex then
    let filenameIndex := (sepIndex + 1).toNat
    let dotN := dotIndex.toNat
    if ((cs.drop filenameIndex).take (dotN - filenameIndex)).all (· = '.') then
      (p, "")
    else
      (String.mk (cs.take dotN), String.mk (cs.drop dotN))
  else (p, "")

/-- `os.path.join` for two components (posix rules). -/
def joinPath (a b : String) : String :=
  if strStartsWith b "/" then b
  else if a = "" ∨ strEndsWith a "/" then a ++ b
  else a ++ "/" ++ b

/-- Python `f"{version:02d}"`: zero-pad to two digits (no truncation). -/
def twoDigit (n : Nat) : String :=
  if n < 10 then "0" ++ toString n else toString n

/-! ## Versioned destination path (source: `get_file_path`, lines 135-139) -/

/-- `get_file_path(base_path, filename, version)`: version 1 keeps the plain name;
any later version inserts `.v{NN}` before the extension found by `splitext`. -/
def get_file_path (base_path filename : String) (version : Nat) : String :=
  let pair := splitext filename
  if version > 1 then
    joinPath base_path (pair.1 ++ ".v" ++ twoDigit version ++ pair.2)
  else
    joinPath base_path filename

/-! ## Format converter mapping (source: `convert_google_file`, lines 153-171) -/

/-- The Google Workspace mime type namespace tested by
`mime_type.startswith("application/vnd.google-apps")` (source line 404). -/
def gappsMime : String := "application/vnd.google-apps"

/-- The fixed export table of `convert_google_file`: the extension appended to the
destination path stem, or `none` for an unsupported proprietary type (which makes
the converter log a warning and return `None`). -/
def googleExportExt (mime_type : String) : Option String :=
  if mime_type = "application/vnd.google-apps.document" then some ".docx"
  else if mime_type = "application/vnd.google-apps.spreadsheet" then some ".xlsx"
  else if mime_type = "application/vnd.google-apps.presentation" then some ".pptx"
  else if mime_type = "application/vnd.google-apps.drawing" then some ".png"
  else none

/-! ## Version ledger (SQLite `files` table; source lines 56-63, 129-132, 386-390) -/

/-- One row of the `files` table:
`(id TEXT, name TEXT, mimeType TEXT, version INTEGER, parentId TEXT, modifiedTime TEXT, localPath TEXT)`. -/
structure FileRow where
  id : String
  name : String
  mimeType : String
  version : Nat
  parentId : Option String
  modifiedTime : String
  localPath : String
deriving Repr, DecidableEq

/-- The versions recorded for `file_id`, in insertion order (rows are only appended). -/
def versionsOf (ledger : List FileRow) (file_id : String) : List Nat :=
  (ledger.filter (fun r => r.id = file_id)).map (fun r => r.version)

/-- `SELECT MAX(version) FROM files WHERE id = ?`, with SQL `NULL` read as 0
(source line 132 applies `(max_version or 0)`). -/
def maxVersion (ledger : List FileRow) (file_id : String) : Nat :=
  (versionsOf ledger file_id).foldl max 0

/-- `get_next_version_number` (source lines 129-132): `(max_version or 0) + 1`. -/
def get_next_version_number (ledger : List FileRow) (file_id : String) : Nat :=
  maxVersion ledger file_id + 1

/-- Fold step selecting the row with the greatest version. -/
def pickLatest (acc : Option FileRow) (r : FileRow) : Option FileRow :=
  match acc with
  | none => some r
  | some b => if b.version < r.version then some r else some b

/-- `SELECT ... FROM files WHERE id = ? ORDER BY version DESC LIMIT 1`
(source lines 386-390): the row with the greatest version for `file_id`. -/
def latestRow (ledger : List FileRow) (file_id : String) : Option FileRow :=
  (ledger.filter (fun r => r.id = file_id)).foldl pickLatest none

/-- The `modifiedTime` of the latest ledger row for `file_id` — the quantity the
unchanged-file check compares against (source lines 386-398). -/
def latestTime (ledger : List FileRow) (file_id : String) : Option String :=
  (latestRow ledger file_id).map (fun r => r.modifiedTime)

/-! ## Exceptions and listing items -/

/-- The Python exception kinds relevant to the program's control flow. -/
inductive PyExc where
  /-- `KeyError` from a missing dict field such as `file["name"]`. -/
  | keyError
  /-- `IndexError` from `file["parents"][0]` on an empty list. -/
  | indexError
  /-- `googleapiclient.errors.HttpError` — caught per-file / per-folder, never retried. -/
  | httpError
  /-- `requests.exceptions.RequestException` — transient, retried. -/
  | requestException
  /-- `requests.exceptions.HTTPError` — transient, retried. -/
  | requestsHTTPError
  /-- `TimeoutError` — transient, retried. -/
  | timeoutError
  /-- `tenacity.RetryError` wrapping the last failed attempt (raised when retries
  are exhausted, since the `@retry` decorators leave `reraise` at its default `False`). -/
  | retryError (last : PyExc)
deriving Repr, DecidableEq

/-- A file item as returned by the remote listing: a Python dict whose expected
fields may be absent. -/
structure RawItem where
  id : Option String
  name : Option String
  mimeType : Option String
  modifiedTime : Option String
  parents : Option (List String)
deriving Repr, DecidableEq

/-- Python `d["k"]`: the value, or a raised `KeyError` when the field is absent. -/
def getKey {α : Type} : Option α → Except PyExc α
  | some v => .ok v
  | none => .error .keyError

/-- `file["parents"][0] if "parents" in file else None` (source line 439). -/
def parentOfItem (file : RawItem) : Except PyExc (Option String) :=
  match file.parents with
  | none => .ok none
  | some [] => .error .indexError
  | some (p :: _) => .ok (some p)

/-- Outcome of the network transfer for one file (the `MediaIoBaseDownload` loop,
whether reached through `convert_google_file`'s export or `files().get_media`). -/
inductive DlOutcome where
  /-- All chunks fetched; bytes written locally. -/
  | success
  /-- The transfer raises `googleapiclient.errors.HttpError`. -/
  | httpErr
  /-- Every retry attempt fails transiently; the `@retry` wrapper around
  `download_file` raises `tenacity.RetryError` wrapping `last`. -/
  | retryExhausted (last : PyExc)
deriving Repr, DecidableEq

/-! ## Per-file processing (source: `download_and_save_file`, lines 376-447) -/

/-- `download_and_save_file`: extract the item's fields (a missing one raises
`KeyError`, uncaught here since only `HttpError` is caught); skip when the
ledger's latest `modifiedTime` equals the remote one; otherwise download
(Google Workspace types through the converter, which appends the export
extension to the versioned path stem) and append exactly one ledger row.
`dl` abstracts the network outcome of the transfer for this item. -/
def download_and_save_file (dl : RawItem → DlOutcome) (file : RawItem)
    (folder_path : String) (ledger : List FileRow) : Except PyExc (List FileRow) := do
  let file_id ← getKey file.id
  let filename ← getKey file.name
  let mime_type ← getKey file.mimeType
  let modified_time ← getKey file.modifiedTime
  let new_version := get_next_version_number ledger file_id
  let unchanged :=
    match latestRow ledger file_id with
    | some row => row.modifiedTime == modified_time
    | none => false
  if unchanged then
    pure ledger
  else
    let filepath := get_file_path folder_path filename new_version
    if strStartsWith mime_type gappsMime then
      match googleExportExt mime_type with
      | none =>
        pure ledger
      | some ext =>
        match dl file with
        | .success => do
          let parent ← parentOfItem file
          pure (ledger ++ [⟨file_id, filename, mime_type, new_version, parent,
                            modified_time, filepath ++ ext⟩])
        | .httpErr => pure ledger
        | .retryExhausted e => .error (.retryError e)
    else
      match dl file with
      | .success => do
        let parent ← parentOfItem file
        pure (ledger ++ [⟨file_id, filename, mime_type, new_version, parent,
                          modified_time, filepath⟩])
      | .httpErr => pure ledger
      | .retryExhausted e => .error (.retryError e)

/-- The `for item in items: download_and_save_file(...)` loop of `process_folder`
(source lines 336-337): sequential, an uncaught exception aborts the loop. -/
def scanFiles (dl : RawItem → DlOutcome) (items : List RawItem)
    (folder_path : String) (ledger : List FileRow) : Except PyExc (List FileRow) :=
  match items with
  | [] => .ok ledger
  | f :: fs =>
    match download_and_save_file dl f folder_path ledger with
    | .error e => .error e
    | .ok l => scanFiles dl fs folder_path l

/-- The exception handlers wrapping the body of `process_folder`
(source lines 367-373): `HttpError` is logged and swallowed (the branch returns
normally), `KeyError` is logged and re-raised, every other exception — in
particular `tenacity.RetryError` — propagates uncaught. -/
def process_folder_catch {α : Type} (r : Except PyExc α) : Except PyExc (Option α) :=
  match r with
  | .ok a => .ok (some a)
  | .error .httpError => .ok none
  | .error .keyError => .error .keyError
  | .error e => .error e

/-! ## Retry wrapper (source: `@retry` decorators, lines 74-86, 99-111, 195-206) -/

/-- `retry_if_exception_type((RequestException, HTTPError, TimeoutError))`. -/
def isTransient : PyExc → Bool
  | .requestException => true
  | .requestsHTTPError => true
  | .timeoutError => true
  | _ => false

/-- `wait_exponential(multiplier=1, min=4, max=10)` evaluated after the failing
attempt numbered `attempt_number` (tenacity computes
`clamp(multiplier * 2 ^ attempt_number, min, max)`). -/
def waitAfter (attempt_number : Nat) : Nat :=
  max 4 (min (2 ^ attempt_number) 10)

/-- The observable behaviour of one decorated call: what is returned or raised,
how many attempts ran, and the sleeps performed between attempts. -/
structure RetryTrace where
  outcome : Except PyExc Unit
  attemptsMade : Nat
  waits : List Nat
deriving Repr

/-- `make_api_request` under its `@retry(stop=stop_after_attempt(3), ...)`
decorator (the identical decorator also wraps `download_file`).  `op n` is the
exception raised by the n-th attempt of the wrapped operation (`none` = attempt
succeeds).  A non-transient exception is raised immediately; a transient one is
retried after a bounded exponential wait; after the third transient failure
tenacity raises `RetryError` wrapping the last attempt (default `reraise=False`). -/
def make_api_request (op : Nat → Option PyExc) : RetryTrace :=
  match op 1 with
  | none => ⟨.ok (), 1, []⟩
  | some e1 =>
    if isTransient e1 then
      match op 2 with
      | none => ⟨.ok (), 2, [waitAfter 1]⟩
      | some e2 =>
        if isTransient e2 then
          match op 3 with
          | none => ⟨.ok (), 3, [waitAfter 1, waitAfter 2]⟩
          | some e3 =>
            if isTransient e3 then
              ⟨.error (.retryError e3), 3, [waitAfter 1, waitAfter 2]⟩
            else
              ⟨.error e3, 3, [waitAfter 1, waitAfter 2]⟩
        else ⟨.error e2, 2, [waitAfter 1]⟩
    else ⟨.error e1, 1, []⟩

/-! ## Date window (source: `main` lines 504-508, `process_folder` lines 307-321) -/

/-- A naive Python `datetime`, day-granular calendar position plus time of day. -/
structure NaiveDT where
  day : Int
  hour : Nat
  minute : Nat
  second : Nat
  microsecond : Nat
deriving Repr, DecidableEq

/-- Microseconds on the naive timeline. -/
def NaiveDT.toMicros (d : NaiveDT) : Int :=
  (((d.day * 24 + (d.hour : Int)) * 60 + (d.minute : Int)) * 60 + (d.second : Int)) * 1000000
    + (d.microsecond : Int)

/-- `start_date.replace(hour=0, minute=0, second=0, microsecond=0)` (source line 505). -/
def startOfDay (d : NaiveDT) : NaiveDT :=
  { d with hour := 0, minute := 0, second := 0, microsecond := 0 }

/-- `end_date.replace(hour=23, minute=59, second=59, microsecond=999999)`
(source lines 308 and 508). -/
def endOfDay (d : NaiveDT) : NaiveDT :=
  { d with hour := 23, minute := 59, second := 59, microsecond := 999999 }

/-- `dt.astimezone(timezone.utc)` on a naive datetime: interpret it in the local
zone (offset `z` microseconds east of UTC) and convert to an absolute UTC instant. -/
def toUtcInstant (z : Int) (d : NaiveDT) : Int :=
  d.toMicros - z

/-- The pair of absolute UTC bounds the query is built from (source lines 308-312,
after `main` already normalized both dates at lines 505/508). -/
def queryWindow (z : Int) (start_date end_date : NaiveDT) : Int × Int :=
  (toUtcInstant z (startOfDay start_date), toUtcInstant z (endOfDay (endOfDay end_date)))

/-- The query's range filter `modifiedTime >= start and modifiedTime <= end`
(source lines 315-321), on absolute instants. -/
def fileQueryMatches (startI endI t : Int) : Bool :=
  decide (startI ≤ t) && decide (t ≤ endI)

/-! ## Listing pagination (source: `process_folder` lines 323-352,
`create_folder_structure` lines 239-244) -/

/-- The keyword arguments a `files().list` call passes (besides `q` and `fields`). -/
structure ListCallArgs where
  pageSize : Option Nat
  pageToken : Option Nat
deriving Repr, DecidableEq

/-- The file-listing request of `process_folder` (source lines 325-333):
`pageSize=1000, pageToken=page_token`. -/
def fileListArgs (page_token : Option Nat) : ListCallArgs :=
  ⟨some 1000, page_token⟩

/-- The subfolder-listing request (source lines 345-351 and 241-243): only `q`
and `fields` are passed — no page size, no page token. -/
def subfolderListArgs : ListCallArgs :=
  ⟨none, none⟩

/-- The `while True` pagination loop over the file listing (source lines 323-341):
each response page is consumed and the loop continues while a `nextPageToken`
remains, i.e. while further pages exist. -/
def collectFilePages {α : Type} : List (List α) → List α
  | [] => []
  | page :: rest => page ++ collectFilePages rest

/-- The subfolders the code iterates over: the single un-paginated response's
`files` field, i.e. only the first page of the listing (source lines 352-354). -/
def subfoldersListed {α : Type} (pages : List (List α)) : List α :=
  pages.headD []

/-! ## Convenience definitions used to state the claims -/

/-- A listing item whose four scalar fields are all present; `p` is the optional
`parents` entry (`none` = field absent, `some x` = `parents: [x]`). -/
def mkItem (i n m t : String) (p : Option String) : RawItem :=
  ⟨some i, some n, some m, some t, p.map (fun x => [x])⟩

/-- The local path `download_and_save_file` records for a changed file at a given
version: Google Workspace types go through the converter, which appends the
export extension to the versioned stem (`none` for an unsupported type);
every other type is written at the versioned path directly. -/
def destPath (folder_path filename mime_type : String) (version : Nat) : Option String :=
  if strStartsWith mime_type gappsMime then
    (googleExportExt mime_type).map
      (fun ext => get_file_path folder_path filename version ++ ext)
  else some (get_file_path folder_path filename version)

/-- The local path of a mirrored subfolder:
`os.path.join(folder_path, sanitize_filename(subfolder["name"]))`
(source lines 355-356 and 248-249). -/
def subfolder_local_path (folder_path name : String) : String :=
  joinPath folder_path (sanitize_filename name)

/-- The per-`fileId` contiguity invariant: the versions recorded for each id,
in insertion order, are exactly `1, 2, ..., k`. -/
def ContiguousVersions (ledger : List FileRow) : Prop :=
  ∀ file_id, ∃ k, versionsOf ledger file_id = List.range' 1 k

/-- A well-formed remote file as observed from a listing (the spec's
`RemoteFile`): every expected scalar field present, `parent` optional. -/
structure RemoteFile where
  id : String
  name : String
  mimeType : String
  modifiedTime : String
  parent : Option String
deriving Repr, DecidableEq

/-- The listing dict carrying a `RemoteFile`. -/
def RemoteFile.toItem (f : RemoteFile) : RawItem :=
  mkItem f.id f.name f.mimeType f.modifiedTime f.parent

/-! ## Helper lemmas about names and paths -/

theorem toList_mk (l : List Char) : (String.mk l).toList = l := rfl

theorem charRepl_chain (x : Char) :
    charRepl '*' (charRepl '?' (charRepl '|' (charRepl '\\' (charRepl '/' (charRepl '"'
        (charRepl ':' (charRepl '>' (charRepl '<' x))))))))
      = (if x ∈ invalid_chars then '_' else x) := by
  by_cases h : x ∈ invalid_chars
  · rw [if_pos h]
    simp only [invalid_chars, List.mem_cons, List.not_mem_nil, or_false] at h
    rcases h with rfl | rfl | rfl | rfl | rfl | rfl | rfl | rfl | rfl <;> decide
  · rw [if_neg h]
    simp only [invalid_chars, List.mem_cons, List.not_mem_nil, or_false, not_or] at h
    obtain ⟨h1, h2, h3, h4, h5, h6, h7, h8, h9⟩ := h
    unfold charRepl
    rw [if_neg h1, if_neg h2, if_neg h3, if_neg h4, if_neg h5, if_neg h6, if_neg h7,
        if_neg h8, if_neg h9]

theorem map_charRepl_chain (cs : List Char) :
    ((((((((cs.map (charRepl '<')).map (charRepl '>')).map (charRepl ':')).map
        (charRepl '"')).map (charRepl '/')).map (charRepl '\\')).map
        (charRepl '|')).map (charRepl '?')).map (charRepl '*')
      = cs.map (fun x => if x ∈ invalid_chars then '_' else x) := by
  induction cs with
  | nil => rfl
  | cons c cs ih =>
    simp only [List.map_cons]
    rw [charRepl_chain c, ih]

/-- Python's sequential nine-pass replacement equals one simultaneous
character map: each invalid character becomes `_`, all others are kept. -/
theorem sanitize_filename_eq_map (name : String) :
    sanitize_filename name
      = String.mk (name.toList.map (fun c => if c ∈ invalid_chars then '_' else c)) := by
  obtain ⟨cs⟩ := name
  unfold sanitize_filename invalid_chars
  simp only [List.foldl_cons, List.foldl_nil, replaceChar, toList_mk, String.toList]
  exact congrArg String.mk (map_charRepl_chain cs)

/-- `splitext` decomposes a path into stem and extension whose concatenation is
the original path. -/
theorem splitext_recombine (p : String) : (splitext p).1 ++ (splitext p).2 = p := by
  obtain ⟨cs⟩ := p
  unfold splitext
  dsimp only [String.toList]
  split_ifs with h1 h2
  · simp
  · show String.mk _ ++ String.mk _ = String.mk cs
    show String.mk (List.take _ cs ++ List.drop _ cs) = String.mk cs
    rw [List.take_append_drop]
  · simp

/-- Every mime type in the converter's export table is a Google Workspace type. -/
theorem exportExt_gapps {m ext : String} (h : googleExportExt m = some ext) :
    strStartsWith m gappsMime = true := by
  unfold googleExportExt at h
  split_ifs at h with h1 h2 h3 h4
  · subst h1; decide
  · subst h2; decide
  · subst h3; decide
  · subst h4; decide

/-! ## Helper lemmas about the ledger -/

theorem foldl_max_init_le (l : List Nat) (a : Nat) : a ≤ l.foldl max a := by
  induction l generalizing a with
  | nil => exact Nat.le_refl a
  | cons x xs ih => exact Nat.le_trans (Nat.le_max_left a x) (ih (max a x))

theorem le_foldl_max_of_mem {l : List Nat} {b : Nat} (a : Nat) (h : b ∈ l) :
    b ≤ l.foldl max a := by
  induction l generalizing a with
  | nil => cases h
  | cons x xs ih =>
    rcases List.mem_cons.mp h with rfl | hx
    · exact Nat.le_trans (Nat.le_max_right a b) (foldl_max_init_le xs (max a b))
    · exact ih (max a x) hx

theorem foldl_max_range' (k : Nat) : (List.range' 1 k).foldl max 0 = k := by
  induction k with
  | zero => rfl
  | succ k ih =>
    rw [List.range'_1_concat, List.foldl_append, ih]
    simp only [List.foldl_cons, List.foldl_nil]
    omega

theorem versionsOf_append (L : List FileRow) (r : FileRow) (fid : String) :
    versionsOf (L ++ [r]) fid
      = versionsOf L fid ++ (if r.id = fid then [r.version] else []) := by
  unfold versionsOf
  rw [List.filter_append]
  by_cases h : r.id = fid <;> simp [h]

theorem mem_versionsOf_le_maxVersion {L : List FileRow} {fid : String} {v : Nat}
    (h : v ∈ versionsOf L fid) : v ≤ maxVersion L fid :=
  le_foldl_max_of_mem 0 h

theorem maxVersion_of_range' {L : List FileRow} {fid : String} {k : Nat}
    (h : versionsOf L fid = List.range' 1 k) : maxVersion L fid = k := by
  unfold maxVersion
  rw [h]
  exact foldl_max_range' k

theorem pickLatest_foldl_mem :
    ∀ (xs : List FileRow) (acc : Option FileRow) (b : FileRow),
      xs.foldl pickLatest acc = some b → acc = some b ∨ b ∈ xs := by
  intro xs
  induction xs with
  | nil => intro acc b h; exact Or.inl h
  | cons x xs ih =>
    intro acc b h
    rcases ih (pickLatest acc x) b h with h' | h'
    · cases acc with
      | none =>
        simp only [pickLatest, Option.some.injEq] at h'
        exact Or.inr (h' ▸ List.mem_cons_self x xs)
      | some a =>
        by_cases hv : a.version < x.version
        · simp only [pickLatest, hv, if_true, Option.some.injEq] at h'
          exact Or.inr (h' ▸ List.mem_cons_self x xs)
        · simp only [pickLatest, hv, if_false] at h'
          exact Or.inl h'
    · exact Or.inr (List.mem_cons_of_mem x h')

theorem latestRow_mem {L : List FileRow} {fid : String} {b : FileRow}
    (h : latestRow L fid = some b) : b ∈ L.filter (fun r => r.id = fid) := by
  rcases pickLatest_foldl_mem _ none b h with h' | h'
  · cases h'
  · exact h'

theorem latestRow_id {L : List FileRow} {fid : String} {b : FileRow}
    (h : latestRow L fid = some b) : b.id = fid := by
  have := List.of_mem_filter (latestRow_mem h)
  exact of_decide_eq_true this

theorem latestRow_version_mem {L : List FileRow} {fid : String} {b : FileRow}
    (h : latestRow L fid = some b) : b.version ∈ versionsOf L fid :=
  List.mem_map_of_mem (fun r => r.version) (latestRow_mem h)

theorem latestRow_append_of_gt {L : List FileRow} {r : FileRow} {fid : String}
    (hid : r.id = fid) (h : ∀ v ∈ versionsOf L fid, v < r.version) :
    latestRow (L ++ [r]) fid = some r := by
  unfold latestRow
  rw [List.filter_append, List.foldl_append]
  have hfil : List.filter (fun x => decide (x.id = fid)) [r] = [r] := by simp [hid]
  rw [hfil]
  cases hacc : (L.filter (fun x => decide (x.id = fid))).foldl pickLatest none with
  | none => rfl
  | some b =>
    have hb : b.version ∈ versionsOf L fid :=
      latestRow_version_mem (L := L) hacc
    have hlt := h _ hb
    simp [pickLatest, hlt]

theorem latestRow_append_of_ne {L : List FileRow} {r : FileRow} {fid : String}
    (hid : r.id ≠ fid) : latestRow (L ++ [r]) fid = latestRow L fid := by
  unfold latestRow
  rw [List.filter_append]
  simp [hid]

theorem latestTime_append_next {L : List FileRow} {r : FileRow}
    (hv : r.version = get_next_version_number L r.id) :
    latestTime (L ++ [r]) r.id = some r.modifiedTime := by
  have hlt : ∀ v ∈ versionsOf L r.id, v < r.version := by
    intro v hv'
    have := mem_versionsOf_le_maxVersion hv'
    unfold get_next_version_number at hv
    omega
  rw [latestTime, latestRow_append_of_gt rfl hlt, Option.map_some']

theorem latestTime_append_ne {L : List FileRow} {r : FileRow} {fid : String}
    (h : r.id ≠ fid) : latestTime (L ++ [r]) fid = latestTime L fid := by
  rw [latestTime, latestRow_append_of_ne h, latestTime]

theorem contiguous_insert {L : List FileRow} {row : FileRow}
    (hC : ContiguousVersions L)
    (hv : row.version = get_next_version_number L row.id) :
    ContiguousVersions (L ++ [row]) := by
  intro fid
  rcases hC fid with ⟨k, hk⟩
  by_cases hid : row.id = fid
  · refine ⟨k + 1, ?_⟩
    rw [versionsOf_append, hk, if_pos hid, List.range'_1_concat]
    have hmax : maxVersion L fid = k := maxVersion_of_range' hk
    have : row.version = k + 1 := by
      rw [hv, get_next_version_number, hid, hmax]
    rw [this, Nat.add_comm 1 k]
  · refine ⟨k, ?_⟩
    rw [versionsOf_append, hk, if_neg hid, List.append_nil]

/-! ## Helper lemmas reducing `download_and_save_file` -/

theorem parentOfItem_mkItem (i n m t : String) (p : Option String) :
    parentOfItem (mkItem i n m t p) = .ok p := by
  cases p <;> rfl

/-- An unchanged file (the ledger's latest `modifiedTime` equals the remote one)
is skipped: no download, no new row. -/
theorem download_skip {dl : RawItem → DlOutcome} {i n m t : String} {p : Option String}
    {fp : String} {L : List FileRow}
    (h : latestTime L i = some t) :
    download_and_save_file dl (mkItem i n m t p) fp L = .ok L := by
  unfold latestTime at h
  cases hl : latestRow L i with
  | none => rw [hl] at h; cases h
  | some row =>
    rw [hl] at h
    simp only [Option.map_some', Option.some.injEq] at h
    simp [download_and_save_file, mkItem, getKey, hl, h, bind, Except.bind, pure, Except.pure]

/-- A changed (or new) file whose transfer succeeds appends exactly one row,
carrying the remote `modifiedTime` and the computed next version. -/
theorem download_insert {dl : RawItem → DlOutcome} {i n m t : String} {p : Option String}
    {fp path : String} {L : List FileRow}
    (hch : latestTime L i ≠ some t)
    (hdl : dl (mkItem i n m t p) = .success)
    (hpath : destPath fp n m (get_next_version_number L i) = some path) :
    download_and_save_file dl (mkItem i n m t p) fp L
      = .ok (L ++ [⟨i, n, m, get_next_version_number L i, p, t, path⟩]) := by
  have hunch : (match latestRow L i with
      | some row => row.modifiedTime == t
      | none => false) = false := by
    cases hl : latestRow L i with
    | none => rfl
    | some row =>
      have : row.modifiedTime ≠ t := by
        intro he
        exact hch (by simp [latestTime, hl, he])
      simpa using this
  unfold destPath at hpath
  simp only [mkItem] at hdl
  cases p with
  | none =>
    simp only [Option.map_none'] at hdl
    by_cases hg : strStartsWith m gappsMime
    · rw [if_pos hg] at hpath
      cases hext : googleExportExt m with
      | none => rw [hext] at hpath; cases hpath
      | some ext =>
        rw [hext] at hpath
        simp only [Option.map_some', Option.some.injEq] at hpath
        simp [download_and_save_file, mkItem, getKey, hunch, hg, hext, hdl,
              parentOfItem, bind, Except.bind, pure, Except.pure, hpath]
    · rw [if_neg hg] at hpath
      simp only [Option.some.injEq] at hpath
      simp [download_and_save_file, mkItem, getKey, hunch, hg, hdl,
            parentOfItem, bind, Except.bind, pure, Except.pure, hpath]
  | some q =>
    simp only [Option.map_some'] at hdl
    by_cases hg : strStartsWith m gappsMime
    · rw [if_pos hg] at hpath
      cases hext : googleExportExt m with
      | none => rw [hext] at hpath; cases hpath
      | some ext =>
        rw [hext] at hpath
        simp only [Option.map_some', Option.some.injEq] at hpath
        simp [download_and_save_file, mkItem, getKey, hunch, hg, hext, hdl,
              parentOfItem, bind, Except.bind, pure, Except.pure, hpath]
    · rw [if_neg hg] at hpath
      simp only [Option.some.injEq] at hpath
      simp [download_and_save_file, mkItem, getKey, hunch, hg, hdl,
            parentOfItem, bind, Except.bind, pure, Except.pure, hpath]

/-- A changed file whose transfer raises `HttpError` is skipped (the exception is
caught per-file), leaving the ledger untouched. -/
theorem download_contained_failure {dl : RawItem → DlOutcome} {i n m t : String}
    {p : Option String} {fp : String} {L : List FileRow}
    (hch : latestTime L i ≠ some t)
    (hdl : dl (mkItem i n m t p) = .httpErr) :
    download_and_save_file dl (mkItem i n m t p) fp L = .ok L := by
  have hunch : (match latestRow L i with
      | some row => row.modifiedTime == t
      | none => false) = false := by
    cases hl : latestRow L i with
    | none => rfl
    | some row =>
      have : row.modifiedTime ≠ t := fun he => hch (by simp [latestTime, hl, he])
      simpa using this
  simp only [mkItem] at hdl
  cases p with
  | none =>
    simp only [Option.map_none'] at hdl
    by_cases hg : strStartsWith m gappsMime <;>
      cases hext : googleExportExt m <;>
      simp [download_and_save_file, mkItem, getKey, hunch, hg, hext, hdl,
            bind, Except.bind, pure, Except.pure]
  | some q =>
    simp only [Option.map_some'] at hdl
    by_cases hg : strStartsWith m gappsMime <;>
      cases hext : googleExportExt m <;>
      simp [download_and_save_file, mkItem, getKey, hunch, hg, hext, hdl,
            bind, Except.bind, pure, Except.pure]

/-- A changed file whose transfer exhausts all retries raises
`tenacity.RetryError`, which `download_and_save_file` does not catch. -/
theorem download_retry_aborts {dl : RawItem → DlOutcome} {i n m t : String}
    {p : Option String} {fp : String} {L : List FileRow} {e : PyExc}
    (hch : latestTime L i ≠ some t)
    (hdl : dl (mkItem i n m t p) = .retryExhausted e)
    (hsup : (destPath fp n m (get_next_version_number L i)).isSome) :
    download_and_save_file dl (mkItem i n m t p) fp L = .error (.retryError e) := by
  have hunch : (match latestRow L i with
      | some row => row.modifiedTime == t
      | none => false) = false := by
    cases hl : latestRow L i with
    | none => rfl
    | some row =>
      have : row.modifiedTime ≠ t := fun he => hch (by simp [latestTime, hl, he])
      simpa using this
  simp only [mkItem] at hdl
  unfold destPath at hsup
  cases p with
  | none =>
    simp only [Option.map_none'] at hdl
    by_cases hg : strStartsWith m gappsMime <;>
      cases hext : googleExportExt m <;>
      simp [hg, hext] at hsup ⊢ <;>
      simp [download_and_save_file, mkItem, getKey, hunch, hg, hext, hdl,
            bind, Except.bind, pure, Except.pure]
  | some q =>
    simp only [Option.map_some'] at hdl
    by_cases hg : strStartsWith m gappsMime <;>
      cases hext : googleExportExt m <;>
      simp [hg, hext] at hsup ⊢ <;>
      simp [download_and_save_file, mkItem, getKey, hunch, hg, hext, hdl,
            bind, Except.bind, pure, Except.pure]

/-- A Google Workspace file whose type is missing from the export table is
skipped: the converter returns `None` before any transfer is attempted. -/
theorem download_unsupported {dl : RawItem → DlOutcome} {i n m t : String}
    {p : Option String} {fp : String} {L : List FileRow}
    (hg : strStartsWith m gappsMime = true) (hext : googleExportExt m = none) :
    download_and_save_file dl (mkItem i n m t p) fp L = .ok L := by
  by_cases hch : latestTime L i = some t
  · exact download_skip hch
  · have hunch : (match latestRow L i with
        | some row => row.modifiedTime == t
        | none => false) = false := by
      cases hl : latestRow L i with
      | none => rfl
      | some row =>
        have : row.modifiedTime ≠ t := fun he => hch (by simp [latestTime, hl, he])
        simpa using this
    simp [download_and_save_file, mkItem, getKey, hunch, hg, hext,
          bind, Except.bind, pure, Except.pure]

/-- Any `.ok` result of `download_and_save_file` either left the ledger unchanged
or appended exactly one row, numbered with the computed next version. -/
theorem download_ok_shape {dl : RawItem → DlOutcome} {f : RawItem}
    {fp : String} {L L' : List FileRow}
    (h : download_and_save_file dl f fp L = .ok L') :
    L' = L ∨ ∃ row : FileRow, L' = L ++ [row]
      ∧ row.version = get_next_version_number L row.id := by
  obtain ⟨fid, fname, fmime, ftime, fpar⟩ := f
  rcases fid with _ | i <;> rcases fname with _ | n <;> rcases fmime with _ | m <;>
    rcases ftime with _ | t <;>
    simp only [download_and_save_file, getKey, bind, Except.bind, pure, Except.pure] at h <;>
    try (cases h)
  split at h
  · exact Or.inl (Except.ok.inj h).symm
  · split at h
    · cases hext : googleExportExt m <;> rw [hext] at h
      · exact Or.inl (Except.ok.inj h).symm
      · cases hdl : dl ⟨some i, some n, some m, some t, fpar⟩ <;> rw [hdl] at h
        · rcases fpar with _ | (_ | ⟨q, qs⟩) <;>
            simp only [parentOfItem, bind, Except.bind, pure, Except.pure] at h
          · exact Or.inr ⟨_, (Except.ok.inj h).symm, rfl⟩
          · cases h
          · exact Or.inr ⟨_, (Except.ok.inj h).symm, rfl⟩
        · exact Or.inl (Except.ok.inj h).symm
        · cases h
    · cases hdl : dl ⟨some i, some n, some m, some t, fpar⟩ <;> rw [hdl] at h
      · rcases fpar with _ | (_ | ⟨q, qs⟩) <;>
          simp only [parentOfItem, bind, Except.bind, pure, Except.pure] at h
        · exact Or.inr ⟨_, (Except.ok.inj h).symm, rfl⟩
        · cases h
        · exact Or.inr ⟨_, (Except.ok.inj h).symm, rfl⟩
      · exact Or.inl (Except.ok.inj h).symm
      · cases h

/-- A listing item missing any of the four extracted fields raises `KeyError`. -/
theorem download_missing_field {dl : RawItem → DlOutcome} {f : RawItem} {fp : String}
    {L : List FileRow}
    (h : f.id = none ∨ f.name = none ∨ f.mimeType = none ∨ f.modifiedTime = none) :
    download_and_save_file dl f fp L = .error .keyError := by
  obtain ⟨fid, fname, fmime, ftime, fpar⟩ := f
  rcases fid with _ | i <;> rcases fname with _ | n <;> rcases fmime with _ | m <;>
    rcases ftime with _ | t <;>
    simp_all [download_and_save_file, getKey, bind, Except.bind]

/-! ## Helper lemmas about the scan loop -/

theorem scanFiles_cons_ok {dl : RawItem → DlOutcome} {f : RawItem} {fs : List RawItem}
    {fp : String} {L L' : List FileRow}
    (h : download_and_save_file dl f fp L = .ok L') :
    scanFiles dl (f :: fs) fp L = scanFiles dl fs fp L' := by
  simp [scanFiles, h]

theorem scanFiles_cons_err {dl : RawItem → DlOutcome} {f : RawItem} {fs : List RawItem}
    {fp : String} {L : List FileRow} {e : PyExc}
    (h : download_and_save_file dl f fp L = .error e) :
    scanFiles dl (f :: fs) fp L = .error e := by
  simp [scanFiles, h]

/-- A mime type the program can actually fetch: either not a Google Workspace
type, or one with an entry in the export table. -/
def Exportable (m : String) : Prop :=
  strStartsWith m gappsMime → (googleExportExt m).isSome

theorem destPath_isSome (fp n : String) {m : String} (v : Nat) (h : Exportable m) :
    (destPath fp n m v).isSome := by
  unfold destPath
  by_cases hg : strStartsWith m gappsMime
  · cases hext : googleExportExt m with
    | none => exact absurd (h hg) (by rw [hext]; simp)
    | some ext => simp [hg, hext]
  · simp [hg]

/-- If every file in the list is unchanged with respect to `L`, the whole scan
loop leaves the ledger untouched. -/
theorem scan_all_skip {dl : RawItem → DlOutcome} {fp : String} :
    ∀ (files : List RemoteFile) (L : List FileRow),
      (∀ f ∈ files, latestTime L f.id = some f.modifiedTime) →
      scanFiles dl (files.map RemoteFile.toItem) fp L = .ok L := by
  intro files
  induction files with
  | nil => intro L _; rfl
  | cons f fs ih =>
    intro L h
    rw [List.map_cons, RemoteFile.toItem,
        scanFiles_cons_ok (download_skip (h f (List.mem_cons_self f fs)))]
    exact ih L (fun g hg => h g (List.mem_cons_of_mem f hg))

/-- After a scan in which every file's transfer succeeds, the latest recorded
`modifiedTime` of every scanned file equals its remote `modifiedTime`;
ids not scanned keep their previous latest row. -/
theorem scan_success_latest {dl : RawItem → DlOutcome} {fp : String} :
    ∀ (files : List RemoteFile) (L0 L1 : List FileRow),
      (∀ f ∈ files, dl f.toItem = .success) →
      (∀ f ∈ files, Exportable f.mimeType) →
      scanFiles dl (files.map RemoteFile.toItem) fp L0 = .ok L1 →
      (∀ fid, fid ∉ files.map RemoteFile.id → latestTime L1 fid = latestTime L0 fid) ∧
      ((files.map RemoteFile.id).Nodup →
        ∀ f ∈ files, latestTime L1 f.id = some f.modifiedTime) := by
  intro files
  induction files with
  | nil =>
    intro L0 L1 _ _ h
    have : L1 = L0 := (Except.ok.inj h).symm
    subst this
    exact ⟨fun _ _ => rfl, fun _ f hf => absurd hf (List.not_mem_nil f)⟩
  | cons f fs ih =>
    intro L0 L1 hok hexp h
    have hfok : dl f.toItem = .success := hok f (List.mem_cons_self f fs)
    have hfexp : Exportable f.mimeType := hexp f (List.mem_cons_self f fs)
    rw [List.map_cons, RemoteFile.toItem] at h
    by_cases hch : latestTime L0 f.id = some f.modifiedTime
    · rw [scanFiles_cons_ok (download_skip (p := f.parent) hch)] at h
      rcases ih L0 L1 (fun g hg => hok g (List.mem_cons_of_mem f hg))
        (fun g hg => hexp g (List.mem_cons_of_mem f hg)) h with ⟨h1, h2⟩
      constructor
      · intro fid hfid
        exact h1 fid (fun hmem => hfid (List.mem_cons_of_mem _ hmem))
      · intro hnd g hg
        rw [List.map_cons, List.nodup_cons] at hnd
        rcases List.mem_cons.mp hg with rfl | hg'
        · rw [h1 g.id hnd.1]
          exact hch
        · exact h2 hnd.2 g hg'
    · obtain ⟨path, hpath⟩ := Option.isSome_iff_exists.mp
        (destPath_isSome fp f.name (get_next_version_number L0 f.id) hfexp)
      have hins := download_insert hch hfok hpath
      rw [scanFiles_cons_ok hins] at h
      set row : FileRow :=
        ⟨f.id, f.name, f.mimeType, get_next_version_number L0 f.id, f.parent,
          f.modifiedTime, path⟩ with hrow
      rcases ih (L0 ++ [row]) L1 (fun g hg => hok g (List.mem_cons_of_mem f hg))
        (fun g hg => hexp g (List.mem_cons_of_mem f hg)) h with ⟨h1, h2⟩
      have hlat : latestTime (L0 ++ [row]) f.id = some f.modifiedTime :=
        latestTime_append_next (r := row) rfl
      constructor
      · intro fid hfid
        have hne : row.id ≠ fid := by
          intro he
          exact hfid (List.mem_cons.mpr (Or.inl (by rw [← he, hrow])))
        rw [h1 fid (fun hmem => hfid (List.mem_cons_of_mem _ hmem)),
            latestTime_append_ne hne]
      · intro hnd g hg
        rw [List.map_cons, List.nodup_cons] at hnd
        rcases List.mem_cons.mp hg with rfl | hg'
        · rw [h1 g.id hnd.1]
          exact hlat
        · exact h2 hnd.2 g hg'

/-! ## Helper lemmas about the retry wrapper -/

theorem waitAfter_bounds (k : Nat) : 4 ≤ waitAfter k ∧ waitAfter k ≤ 10 := by
  unfold waitAfter
  exact ⟨Nat.le_max_left 4 _, max_le (by norm_num) (Nat.min_le_right _ _)⟩

theorem make_api_request_attempts (op : Nat → Option PyExc) :
    (make_api_request op).attemptsMade ≤ 3 := by
  cases h1 : op 1 with
  | none => simp [make_api_request, h1]
  | some e1 =>
    by_cases ht1 : isTransient e1
    · cases h2 : op 2 with
      | none => simp [make_api_request, h1, ht1, h2]
      | some e2 =>
        by_cases ht2 : isTransient e2
        · cases h3 : op 3 with
          | none => simp [make_api_request, h1, ht1, h2, ht2, h3]
          | some e3 =>
            by_cases ht3 : isTransient e3 <;>
              simp [make_api_request, h1, ht1, h2, ht2, h3, ht3]
        · simp [make_api_request, h1, ht1, h2, ht2]
    · simp [make_api_request, h1, ht1]

theorem make_api_request_waits (op : Nat → Option PyExc) :
    ∀ w ∈ (make_api_request op).waits, 4 ≤ w ∧ w ≤ 10 := by
  have hb : ∀ w, (w = waitAfter 1 ∨ w = waitAfter 2) → 4 ≤ w ∧ w ≤ 10 := by
    rintro w (rfl | rfl)
    · exact waitAfter_bounds 1
    · exact waitAfter_bounds 2
  intro w hw
  apply hb
  cases h1 : op 1 with
  | none => simp [make_api_request, h1] at hw
  | some e1 =>
    by_cases ht1 : isTransient e1
    · cases h2 : op 2 with
      | none =>
        simp [make_api_request, h1, ht1, h2] at hw
        exact Or.inl hw
      | some e2 =>
        by_cases ht2 : isTransient e2
        · cases h3 : op 3 with
          | none =>
            simp [make_api_request, h1, ht1, h2, ht2, h3] at hw
            exact hw
          | some e3 =>
            by_cases ht3 : isTransient e3 <;>
              simp [make_api_request, h1, ht1, h2, ht2, h3, ht3] at hw <;>
              exact hw
        · simp [make_api_request, h1, ht1, h2, ht2] at hw
          exact Or.inl hw
    · simp [make_api_request, h1, ht1] at hw

/-! ## Claim theorems -/

set_option maxRecDepth 4000

/-- **C3 counterexample**: the claim says exhausting all 3 attempts raises a
terminal failure of the same error type as the last transient error.  On an
operation that raises `TimeoutError` on every attempt, the retry wrapper raises
`tenacity.RetryError` wrapping the timeout — a different exception type —
because the `@retry` decorators leave `reraise` at its default `False`. -/
theorem retry_terminal_kind_counterexample :
    (make_api_request (fun _ => some .timeoutError)).outcome
        = .error (.retryError .timeoutError)
      ∧ (make_api_request (fun _ => some .timeoutError)).outcome
        ≠ .error .timeoutError := by
  refine ⟨by rfl, ?_⟩
  intro h
  exact PyExc.noConfusion (Except.error.inj h)

/-- **C3 (amended)**: transient failures (network/connection, HTTP-transport,
timeout) are retried up to 3 total attempts, with every backoff wait clamped to
the 4–10 window; a non-transient failure propagates immediately with no retry;
and exhausting all 3 attempts raises `tenacity.RetryError` *wrapping* the last
transient error (not an error of the same type). -/
theorem retry_policy (op : Nat → Option PyExc) :
    (op 1 = none → make_api_request op = ⟨.ok (), 1, []⟩)
      ∧ (∀ e, op 1 = some e → isTransient e = false →
          make_api_request op = ⟨.error e, 1, []⟩)
      ∧ (∀ e1, op 1 = some e1 → isTransient e1 = true → op 2 = none →
          make_api_request op = ⟨.ok (), 2, [waitAfter 1]⟩)
      ∧ (∀ e1 e2 e3, op 1 = some e1 → isTransient e1 = true →
          op 2 = some e2 → isTransient e2 = true →
          op 3 = some e3 → isTransient e3 = true →
          make_api_request op
            = ⟨.error (.retryError e3), 3, [waitAfter 1, waitAfter 2]⟩)
      ∧ (make_api_request op).attemptsMade ≤ 3
      ∧ (∀ w ∈ (make_api_request op).waits, 4 ≤ w ∧ w ≤ 10) := by
  refine ⟨?_, ?_, ?_, ?_, make_api_request_attempts op, make_api_request_waits op⟩
  · intro h1
    simp [make_api_request, h1]
  · intro e h1 ht
    simp [make_api_request, h1, ht]
  · intro e1 h1 ht1 h2
    simp [make_api_request, h1, ht1, h2]
  · intro e1 e2 e3 h1 ht1 h2 ht2 h3 ht3
    simp [make_api_request, h1, ht1, h2, ht2, h3, ht3]

/-- Witness for `retry_policy` at the constant `RequestException` operation. -/
theorem retry_policy_witness :
    make_api_request (fun _ => some .requestException)
      = ⟨.error (.retryError .requestException), 3, [waitAfter 1, waitAfter 2]⟩ :=
  (retry_policy (fun _ => some .requestException)).2.2.2.1
    .requestException .requestException .requestException rfl rfl rfl rfl rfl rfl

/-- **C6**: version 1 keeps the plain file name under the folder; any version
`v ≥ 2` inserts the two-digit `.vNN` suffix at the original extension position
(before the extension, not after); concretely `report.docx` gives
`report.docx` at version 1 and `report.v02.docx` at version 2; and for a
converted Google Workspace file the export extension is appended after the
versioned stem produced by `get_file_path`. -/
theorem versioned_path_naming :
    (∀ base_path filename : String,
        get_file_path base_path filename 1 = joinPath base_path filename)
      ∧ (∀ (base_path filename : String) (v : Nat), 2 ≤ v →
          get_file_path base_path filename v
            = joinPath base_path
                ((splitext filename).1 ++ ".v" ++ twoDigit v ++ (splitext filename).2))
      ∧ (∀ filename : String, (splitext filename).1 ++ (splitext filename).2 = filename)
      ∧ get_file_path "bk" "report.docx" 1 = "bk/report.docx"
      ∧ get_file_path "bk" "report.docx" 2 = "bk/report.v02.docx"
      ∧ (∀ (folder_path filename m : String) (v : Nat) (ext : String),
          googleExportExt m = some ext →
          destPath folder_path filename m v
            = some (get_file_path folder_path filename v ++ ext)) := by
  refine ⟨?_, ?_, splitext_recombine, by rfl, by rfl, ?_⟩
  · intro bp fn
    unfold get_file_path
    simp
  · intro bp fn v hv
    unfold get_file_path
    rw [if_pos (by omega : v > 1)]
  · intro fp fn m v ext h
    unfold destPath
    rw [if_pos (exportExt_gapps h), h, Option.map_some']

/-- Witness for `versioned_path_naming` at version 2 and at the spreadsheet
export extension. -/
theorem versioned_path_naming_witness :
    get_file_path "d" "a.txt" 2
        = joinPath "d" ((splitext "a.txt").1 ++ ".v" ++ twoDigit 2 ++ (splitext "a.txt").2)
      ∧ destPath "d" "Spec" "application/vnd.google-apps.spreadsheet" 2
        = some (get_file_path "d" "Spec" 2 ++ ".xlsx") :=
  ⟨versioned_path_naming.2.1 "d" "a.txt" 2 (by norm_num),
   versioned_path_naming.2.2.2.2.2 "d" "Spec" "application/vnd.google-apps.spreadsheet"
     2 ".xlsx" rfl⟩

/-- **C7 counterexample**: the claim says every downloaded file's destination
path uses the sanitized remote name.  But `download_and_save_file` passes the
raw `file["name"]` to `get_file_path` without calling `sanitize_filename`: a
file named `a/b:c*d` is recorded at local path `bk/a/b:c*d`, not at the
sanitized `bk/a_b_c_d`. -/
theorem sanitization_counterexample :
    download_and_save_file (fun _ => .success) (mkItem "f2" "a/b:c*d" "text/plain" "T" none)
        "bk" []
      = .ok [⟨"f2", "a/b:c*d", "text/plain", 1, none, "T", "bk/a/b:c*d"⟩]
    ∧ sanitize_filename "a/b:c*d" = "a_b_c_d"
    ∧ ("bk/a/b:c*d" : String) ≠ joinPath "bk" (sanitize_filename "a/b:c*d") :=
  ⟨by rfl, by rfl, by decide⟩

/-- **C7 (amended)**: `sanitize_filename` replaces each of `<>:"/\|?*` by `_`
(so `a/b:c*d` maps to `a_b_c_d`), and mirrored *folder* local paths are built
from the sanitized name; but a downloaded *file's* destination path is built
from the raw remote name, which is not sanitized. -/
theorem sanitization_policy :
    (∀ name : String, sanitize_filename name
        = String.mk (name.toList.map (fun c => if c ∈ invalid_chars then '_' else c)))
      ∧ sanitize_filename "a/b:c*d" = "a_b_c_d"
      ∧ (∀ folder_path name : String,
          subfolder_local_path folder_path name
            = joinPath folder_path (sanitize_filename name))
      ∧ (∀ (dl : RawItem → DlOutcome) (f : RemoteFile) (fp : String) (L : List FileRow),
          dl f.toItem = .success →
          strStartsWith f.mimeType gappsMime = false →
          latestTime L f.id ≠ some f.modifiedTime →
          download_and_save_file dl f.toItem fp L
            = .ok (L ++ [⟨f.id, f.name, f.mimeType, get_next_version_number L f.id,
                f.parent, f.modifiedTime,
                get_file_path fp f.name (get_next_version_number L f.id)⟩])) := by
  refine ⟨sanitize_filename_eq_map, by rfl, fun _ _ => rfl, ?_⟩
  intro dl f fp L hdl hng hch
  have hpath : destPath fp f.name f.mimeType (get_next_version_number L f.id)
      = some (get_file_path fp f.name (get_next_version_number L f.id)) := by
    unfold destPath
    rw [hng]
    simp
  exact download_insert hch hdl hpath

/-- Witness for `sanitization_policy`: a plain-text file is recorded under its
raw name. -/
theorem sanitization_policy_witness :
    download_and_save_file (fun _ => .success)
        (RemoteFile.mk "f7" "n7.txt" "text/plain" "T7" none).toItem "bk" []
      = .ok ([] ++ [⟨"f7", "n7.txt", "text/plain", get_next_version_number [] "f7",
          none, "T7", get_file_path "bk" "n7.txt" (get_next_version_number [] "f7")⟩]) :=
  sanitization_policy.2.2.2 (fun _ => .success) ⟨"f7", "n7.txt", "text/plain", "T7", none⟩
    "bk" [] rfl rfl (by decide)

/-- **C8**: `startDate` is normalized to 00:00:00.000000 and `endDate` to
23:59:59.999999 of their calendar days, both shifted to absolute UTC instants,
and the remote query's range test is inclusive at both ends: the bounds
themselves match, one microsecond outside either bound does not. -/
theorem date_window_inclusive (z : Int) (sd ed : NaiveDT) (hday : sd.day ≤ ed.day) :
    (startOfDay sd).toMicros = sd.day * 86400000000
      ∧ (endOfDay ed).toMicros = ed.day * 86400000000 + 86399999999
      ∧ fileQueryMatches (queryWindow z sd ed).1 (queryWindow z sd ed).2
          (queryWindow z sd ed).1 = true
      ∧ fileQueryMatches (queryWindow z sd ed).1 (queryWindow z sd ed).2
          (queryWindow z sd ed).2 = true
      ∧ fileQueryMatches (queryWindow z sd ed).1 (queryWindow z sd ed).2
          ((queryWindow z sd ed).1 - 1) = false
      ∧ fileQueryMatches (queryWindow z sd ed).1 (queryWindow z sd ed).2
          ((queryWindow z sd ed).2 + 1) = false := by
  have h1 : (startOfDay sd).toMicros = sd.day * 86400000000 := by
    unfold startOfDay NaiveDT.toMicros
    push_cast
    ring
  have h2' : ∀ d : NaiveDT, (endOfDay d).toMicros = d.day * 86400000000 + 86399999999 := by
    intro d
    unfold endOfDay NaiveDT.toMicros
    push_cast
    ring
  have hw : (queryWindow z sd ed).1 ≤ (queryWindow z sd ed).2 := by
    unfold queryWindow toUtcInstant
    rw [h1, h2']
    dsimp only [endOfDay]
    omega
  refine ⟨h1, h2' ed, ?_, ?_, ?_, ?_⟩
  · unfold fileQueryMatches
    rw [decide_eq_true (le_refl _), decide_eq_true hw]
    rfl
  · unfold fileQueryMatches
    rw [decide_eq_true hw, decide_eq_true (le_refl _)]
    rfl
  · unfold fileQueryMatches
    rw [decide_eq_false
      (show ¬((queryWindow z sd ed).1 ≤ (queryWindow z sd ed).1 - 1) by omega)]
    rfl
  · unfold fileQueryMatches
    rw [decide_eq_false
      (show ¬((queryWindow z sd ed).2 + 1 ≤ (queryWindow z sd ed).2) by omega)]
    exact Bool.and_false _

/-- Witness for `date_window_inclusive` on a one-day window at offset zero. -/
theorem date_window_inclusive_witness :
    (startOfDay ⟨0, 0, 0, 0, 0⟩).toMicros = (0 : Int) * 86400000000
      ∧ (endOfDay ⟨0, 0, 0, 0, 0⟩).toMicros = (0 : Int) * 86400000000 + 86399999999
      ∧ fileQueryMatches (queryWindow 0 ⟨0, 0, 0, 0, 0⟩ ⟨0, 0, 0, 0, 0⟩).1
          (queryWindow 0 ⟨0, 0, 0, 0, 0⟩ ⟨0, 0, 0, 0, 0⟩).2
          (queryWindow 0 ⟨0, 0, 0, 0, 0⟩ ⟨0, 0, 0, 0, 0⟩).1 = true
      ∧ fileQueryMatches (queryWindow 0 ⟨0, 0, 0, 0, 0⟩ ⟨0, 0, 0, 0, 0⟩).1
          (queryWindow 0 ⟨0, 0, 0, 0, 0⟩ ⟨0, 0, 0, 0, 0⟩).2
          (queryWindow 0 ⟨0, 0, 0, 0, 0⟩ ⟨0, 0, 0, 0, 0⟩).2 = true
      ∧ fileQueryMatches (queryWindow 0 ⟨0, 0, 0, 0, 0⟩ ⟨0, 0, 0, 0, 0⟩).1
          (queryWindow 0 ⟨0, 0, 0, 0, 0⟩ ⟨0, 0, 0, 0, 0⟩).2
          ((queryWindow 0 ⟨0, 0, 0, 0, 0⟩ ⟨0, 0, 0, 0, 0⟩).1 - 1) = false
      ∧ fileQueryMatches (queryWindow 0 ⟨0, 0, 0, 0, 0⟩ ⟨0, 0, 0, 0, 0⟩).1
          (queryWindow 0 ⟨0, 0, 0, 0, 0⟩ ⟨0, 0, 0, 0, 0⟩).2
          ((queryWindow 0 ⟨0, 0, 0, 0, 0⟩ ⟨0, 0, 0, 0, 0⟩).2 + 1) = false :=
  date_window_inclusive 0 ⟨0, 0, 0, 0, 0⟩ ⟨0, 0, 0, 0, 0⟩ (le_refl 0)

/-- **C10**: the file listing is requested with page size 1000 and a
continuation token, and its loop consumes every response page; the subfolder
listing is a single request with no page-size and no token argument, so only
the first response page of subfolders is recursed into. -/
theorem listing_pagination :
    (∀ page_token : Option Nat, (fileListArgs page_token).pageSize = some 1000)
      ∧ subfolderListArgs.pageSize = none
      ∧ subfolderListArgs.pageToken = none
      ∧ (∀ pages : List (List RawItem), collectFilePages pages = pages.flatten)
      ∧ (∀ pages : List (List String), subfoldersListed pages = pages.headD [])
      ∧ subfoldersListed [["sub1"], ["sub2"]] = ["sub1"] := by
  refine ⟨fun _ => rfl, rfl, rfl, ?_, fun _ => rfl, rfl⟩
  intro pages
  induction pages with
  | nil => rfl
  | cons p ps ih => simp [collectFilePages, ih]

/-- **C1**: with the transfer succeeding for the file, the file is skipped with
no new ledger row exactly when the ledger's latest `modifiedTime` for its id is
string-equal to the remote `modifiedTime` (the comparison is bare string
equality, so a backward move is just another inequality); any difference
produces exactly one new row carrying the remote `modifiedTime` and the
computed next version. -/
theorem change_detection_policy (dl : RawItem → DlOutcome) (f : RemoteFile)
    (fp : String) (L : List FileRow)
    (hdl : dl f.toItem = .success)
    (hexp : Exportable f.mimeType) :
    (download_and_save_file dl f.toItem fp L = .ok L
        ↔ latestTime L f.id = some f.modifiedTime)
      ∧ (latestTime L f.id ≠ some f.modifiedTime →
          ∃ row : FileRow,
            download_and_save_file dl f.toItem fp L = .ok (L ++ [row])
              ∧ row.id = f.id ∧ row.modifiedTime = f.modifiedTime
              ∧ row.version = get_next_version_number L f.id) := by
  obtain ⟨path, hpath⟩ := Option.isSome_iff_exists.mp
    (destPath_isSome fp f.name (get_next_version_number L f.id) hexp)
  have hins : ∀ _ : latestTime L f.id ≠ some f.modifiedTime,
      download_and_save_file dl f.toItem fp L
        = .ok (L ++ [⟨f.id, f.name, f.mimeType, get_next_version_number L f.id,
            f.parent, f.modifiedTime, path⟩]) :=
    fun hch => download_insert hch hdl hpath
  constructor
  · constructor
    · intro hok
      by_contra hch
      rw [hins hch] at hok
      have hlen := congrArg List.length (Except.ok.inj hok)
      simp at hlen
    · intro hch
      exact download_skip hch
  · intro hch
    exact ⟨_, hins hch, rfl, rfl, rfl⟩

/-- Witness for `change_detection_policy` on a new file against an empty ledger. -/
theorem change_detection_policy_witness :
    ((download_and_save_file (fun _ => .success)
        (RemoteFile.mk "f1" "a.txt" "text/plain" "TW" none).toItem "bk" [] = .ok []
        ↔ latestTime [] "f1" = some "TW")
      ∧ (latestTime [] "f1" ≠ some "TW" →
          ∃ row : FileRow,
            download_and_save_file (fun _ => .success)
                (RemoteFile.mk "f1" "a.txt" "text/plain" "TW" none).toItem "bk" []
              = .ok ([] ++ [row])
            ∧ row.id = "f1" ∧ row.modifiedTime = "TW"
            ∧ row.version = get_next_version_number [] "f1")) :=
  change_detection_policy (fun _ => .success) ⟨"f1", "a.txt", "text/plain", "TW", none⟩
    "bk" [] rfl (fun h => absurd h (by decide))

/-- **C2**: the empty ledger satisfies the contiguity invariant; under the
invariant the next version number after versions `{1..k}` is `k + 1` (so 1 when
none exist); and both a single `download_and_save_file` step and the whole
sequential scan loop preserve the invariant, so at every point of the scan the
versions of every fileId are exactly `1, 2, ..., k` in observation order. -/
theorem version_contiguity :
    ContiguousVersions []
      ∧ (∀ (L : List FileRow) (file_id : String) (k : Nat),
          versionsOf L file_id = List.range' 1 k →
          get_next_version_number L file_id = k + 1)
      ∧ (∀ (dl : RawItem → DlOutcome) (f : RawItem) (fp : String) (L L' : List FileRow),
          ContiguousVersions L →
          download_and_save_file dl f fp L = .ok L' → ContiguousVersions L')
      ∧ (∀ (dl : RawItem → DlOutcome) (items : List RawItem) (fp : String)
            (L L' : List FileRow),
          ContiguousVersions L →
          scanFiles dl items fp L = .ok L' → ContiguousVersions L') := by
  have hstep : ∀ (dl : RawItem → DlOutcome) (f : RawItem) (fp : String)
      (L L' : List FileRow),
      ContiguousVersions L →
      download_and_save_file dl f fp L = .ok L' → ContiguousVersions L' := by
    intro dl f fp L L' hC h
    rcases download_ok_shape h with rfl | ⟨row, rfl, hv⟩
    · exact hC
    · exact contiguous_insert hC hv
  refine ⟨fun _ => ⟨0, rfl⟩, ?_, hstep, ?_⟩
  · intro L fid k hk
    unfold get_next_version_number
    rw [maxVersion_of_range' hk]
  · intro dl items
    induction items with
    | nil =>
      intro fp L L' hC h
      exact (Except.ok.inj h) ▸ hC
    | cons f fs ih =>
      intro fp L L' hC h
      cases hd : download_and_save_file dl f fp L with
      | error e => rw [scanFiles_cons_err hd] at h; cases h
      | ok Lm =>
        rw [scanFiles_cons_ok hd] at h
        exact ih fp Lm L' (hstep dl f fp L Lm hC hd) h

/-- Witness for `version_contiguity`: next version on an empty ledger, and
invariant preservation across one concrete insert. -/
theorem version_contiguity_witness :
    get_next_version_number [] "f1" = 0 + 1
      ∧ ContiguousVersions [⟨"f1", "a", "text/plain", 1, none, "T", "bk/a"⟩] :=
  ⟨version_contiguity.2.1 [] "f1" 0 rfl,
   version_contiguity.2.2.1 (fun _ => .success) (mkItem "f1" "a" "text/plain" "T" none)
     "bk" [] [⟨"f1", "a", "text/plain", 1, none, "T", "bk/a"⟩]
     version_contiguity.1 (by rfl)⟩

/-- **C4 counterexample**: the claim says a file failing transiently on all 3
retry attempts is skipped alone, with the scan continuing.  In fact the
`RetryError` escapes: the two-file scan whose first file exhausts retries
returns the raised error (no file afterwards is processed), while the second
file alone would have been downloaded and recorded. -/
theorem per_file_failure_counterexample :
    scanFiles (fun it => if it.id = some "fA" then .retryExhausted .timeoutError else .success)
        [mkItem "fA" "a.txt" "text/plain" "T1" none, mkItem "fB" "b.txt" "text/plain" "T2" none]
        "bk" []
      = .error (.retryError .timeoutError)
    ∧ scanFiles (fun it => if it.id = some "fA" then .retryExhausted .timeoutError else .success)
        [mkItem "fB" "b.txt" "text/plain" "T2" none] "bk" []
      = .ok [⟨"fB", "b.txt", "text/plain", 1, none, "T2", "bk/b.txt"⟩] :=
  ⟨by rfl, by rfl⟩

/-- **C4 (amended)**: a per-file failure raising `HttpError`, or an unsupported
Google Workspace type, skips exactly that file with no ledger row and the scan
continues with the remaining files; but a transfer that exhausts all 3 retry
attempts raises `tenacity.RetryError`, which no file-scoped handler catches, so
the scan loop aborts with that error. -/
theorem per_file_failure_policy (dl : RawItem → DlOutcome) (f : RemoteFile)
    (fs : List RawItem) (fp : String) (L : List FileRow) :
    (dl f.toItem = .httpErr →
        scanFiles dl (f.toItem :: fs) fp L = scanFiles dl fs fp L)
      ∧ (strStartsWith f.mimeType gappsMime = true →
          googleExportExt f.mimeType = none →
          scanFiles dl (f.toItem :: fs) fp L = scanFiles dl fs fp L)
      ∧ (∀ e, dl f.toItem = .retryExhausted e →
          latestTime L f.id ≠ some f.modifiedTime → Exportable f.mimeType →
          scanFiles dl (f.toItem :: fs) fp L = .error (.retryError e)) := by
  refine ⟨?_, ?_, ?_⟩
  · intro hdl
    by_cases hch : latestTime L f.id = some f.modifiedTime
    · exact scanFiles_cons_ok (download_skip hch)
    · exact scanFiles_cons_ok (download_contained_failure hch hdl)
  · intro hg hext
    exact scanFiles_cons_ok (download_unsupported hg hext)
  · intro e hdl hch hexp
    exact scanFiles_cons_err
      (download_retry_aborts hch hdl (destPath_isSome fp f.name (get_next_version_number L f.id) hexp))

/-- Witness for `per_file_failure_policy`: an `HttpError` on the only file
leaves the ledger untouched and the loop continues normally. -/
theorem per_file_failure_policy_witness :
    scanFiles (fun _ => .httpErr)
        ((RemoteFile.mk "fC" "c.txt" "text/plain" "TC" none).toItem :: []) "bk" []
      = scanFiles (fun _ => .httpErr) [] "bk" [] :=
  (per_file_failure_policy (fun _ => .httpErr) ⟨"fC", "c.txt", "text/plain", "TC", none⟩
    [] "bk" []).1 rfl

/-- **C5**: re-running the scan loop over an unchanged remote state (same files,
same `modifiedTime` values, transfers succeeding) starting from the ledger the
first run produced returns that ledger unchanged — zero new version rows. -/
theorem scan_idempotent (dl : RawItem → DlOutcome) (files : List RemoteFile)
    (fp : String) (L1 : List FileRow)
    (hnd : (files.map RemoteFile.id).Nodup)
    (hok : ∀ f ∈ files, dl f.toItem = .success)
    (hexp : ∀ f ∈ files, Exportable f.mimeType)
    (h1 : scanFiles dl (files.map RemoteFile.toItem) fp [] = .ok L1) :
    scanFiles dl (files.map RemoteFile.toItem) fp L1 = .ok L1 := by
  rcases scan_success_latest files [] L1 hok hexp h1 with ⟨_, h2⟩
  exact scan_all_skip files L1 (h2 hnd)

/-- Witness for `scan_idempotent` on a concrete two-file scan. -/
theorem scan_idempotent_witness :
    scanFiles (fun _ => .success)
        ([⟨"fA", "a.txt", "text/plain", "TA", none⟩,
          ⟨"fB", "b.txt", "text/plain", "TB", none⟩].map RemoteFile.toItem) "bk"
        [⟨"fA", "a.txt", "text/plain", 1, none, "TA", "bk/a.txt"⟩,
         ⟨"fB", "b.txt", "text/plain", 1, none, "TB", "bk/b.txt"⟩]
      = .ok [⟨"fA", "a.txt", "text/plain", 1, none, "TA", "bk/a.txt"⟩,
             ⟨"fB", "b.txt", "text/plain", 1, none, "TB", "bk/b.txt"⟩] :=
  scan_idempotent (fun _ => .success)
    [⟨"fA", "a.txt", "text/plain", "TA", none⟩, ⟨"fB", "b.txt", "text/plain", "TB", none⟩]
    "bk"
    [⟨"fA", "a.txt", "text/plain", 1, none, "TA", "bk/a.txt"⟩,
     ⟨"fB", "b.txt", "text/plain", 1, none, "TB", "bk/b.txt"⟩]
    (by decide) (fun _ _ => rfl)
    (by
      intro f hf
      simp only [List.mem_cons, List.not_mem_nil, or_false] at hf
      rcases hf with rfl | rfl <;> exact fun h => absurd h (by decide))
    (by rfl)

/-- **C9 counterexample**: the claim says a file item missing an expected field
never aborts the scan.  An item with no `name` raises `KeyError`, which the
folder-level handler logs and re-raises, so the scan aborts. -/
theorem missing_field_counterexample :
    download_and_save_file (fun _ => .success)
        ⟨some "f9", none, some "text/plain", some "T", some ["root"]⟩ "bk" []
      = .error .keyError
    ∧ process_folder_catch (scanFiles (fun _ => .success)
        [⟨some "f9", none, some "text/plain", some "T", some ["root"]⟩] "bk" [])
      = .error .keyError :=
  ⟨by rfl, by rfl⟩

/-- **C9 (amended)**: only a missing `parents` field is tolerated — the file is
processed normally and its row records a null parent; an item missing `id`,
`name`, `mimeType` or `modifiedTime` raises `KeyError`, which `process_folder`
logs and re-raises, aborting the scan. -/
theorem missing_field_policy :
    (∀ (dl : RawItem → DlOutcome) (f : RawItem) (fp : String) (L : List FileRow),
        f.id = none ∨ f.name = none ∨ f.mimeType = none ∨ f.modifiedTime = none →
        download_and_save_file dl f fp L = .error .keyError)
      ∧ process_folder_catch (Except.error (α := List FileRow) .keyError)
          = .error .keyError
      ∧ (∀ (dl : RawItem → DlOutcome) (i n m t fp path : String) (L : List FileRow),
          dl (mkItem i n m t none) = .success →
          latestTime L i ≠ some t →
          destPath fp n m (get_next_version_number L i) = some path →
          download_and_save_file dl (mkItem i n m t none) fp L
            = .ok (L ++ [⟨i, n, m, get_next_version_number L i, none, t, path⟩])) := by
  refine ⟨fun dl f fp L h => download_missing_field h, rfl, ?_⟩
  intro dl i n m t fp path L hdl hch hpath
  exact download_insert hch hdl hpath

/-- Witness for `missing_field_policy`: an item with no `id` raises `KeyError`. -/
theorem missing_field_policy_witness :
    download_and_save_file (fun _ => .success)
        ⟨none, some "n", some "m", some "T", none⟩ "bk" [] = .error .keyError :=
  missing_field_policy.1 (fun _ => .success) ⟨none, some "n", some "m", some "T", none⟩
    "bk" [] (Or.inl rfl)

end GDriveBackup
